import Mathlib

/-!
The Mission Control account-storage plugin of telepathy-ofono.

A shallow embedding of `mc-plugin/mcp-account-manager-ofono.c`.

* A C string (`gchar *`, NUL-terminated) is the list of its `char`s before the
  terminator; a `NULL` pointer is `none`.
* A `GHashTable` created with `g_str_hash`/`g_str_equal` is the list of its
  entries in iteration order; keys are compared as strings. GLib fixes no
  iteration order, so what is proved of a table read by the plugin is proved
  for every list, that is for every order.
* `self->priv->accounts` (a `GList`) is a `List OfonoAccount`.
* `g_error` aborts the process and a `NULL` dereference crashes it: both are
  the `Except.error` results of the functions that can reach them.
-/

namespace McpOfono

/-! ## C strings and the library functions the plugin calls -/

/-- A C string: the `char`s before the terminating NUL. -/
abbrev CString := List Char

/-- Macro `#define DBUS_PATH_LEN 80` -/
def DBUS_PATH_LEN : Nat := 80

/-- Macro `#define ACCOUNT_NAME_LEN 80` -/
def ACCOUNT_NAME_LEN : Nat := 80

/-- Macro `#define MODEM_NAME_LEN 40` -/
def MODEM_NAME_LEN : Nat := 40

/-- Constant `G_MAXUINT`: the largest `guint` (32 bits). -/
def G_MAXUINT : Nat := 2 ^ 32 - 1

/-- Constant `INT_MAX`: the largest C `int` (32 bits). -/
def INT_MAX : Int := 2 ^ 31 - 1

/-- The `%d` conversion of `printf`: a minus sign for a negative value, then the
decimal digits, most significant first, no leading zero. -/
def fmt_d (i : Int) : CString :=
  if 0 ≤ i then Nat.toDigits 10 i.toNat else '-' :: Nat.toDigits 10 i.natAbs

/-- Function `g_snprintf (buf, n, ...)` for a buffer of `n > 0` bytes (C99 `snprintf`),
applied to the fully formatted text: the buffer receives at most `n - 1`
characters (the last byte is the NUL), and the return value is the length the
full text would have needed, terminator excluded. -/
def g_snprintf (n : Nat) (formatted : CString) : CString × Int :=
  (formatted.take (n - 1), (formatted.length : Int))

/-- The text of the format `"ofono/ofono/%s%d"`. -/
def account_name_fmt ( account_prefix : CString) (index : Int) : CString :=
  "ofono/ofono/".toList ++ account_prefix ++ fmt_d index

/-- The text of the format `"/%s%d"`. -/
def modem_name_fmt ( modem_prefix : CString) (index : Int) : CString :=
  "/".toList ++ modem_prefix ++ fmt_d index

/-! ## GHashTable with string keys -/

/-- A `GHashTable` from strings to strings: its entries in iteration order. -/
abbrev GHashTable := List (CString × CString)

/-- Function `g_hash_table_new (g_str_hash, g_str_equal)` -/
def g_hash_table_new : GHashTable := []

/-- Function `g_hash_table_insert`: the value of a key already present is replaced,
a new key gets a new entry. -/
def g_hash_table_insert : GHashTable → CString → CString → GHashTable
  | [], key, value => [(key, value)]
  | (k, v) :: rest, key, value =>
    if k = key then (k, value) :: rest else (k, v) :: g_hash_table_insert rest key value

/-- Function `g_hash_table_lookup`: the value stored for the key, `NULL` when there is none. -/
def g_hash_table_lookup : GHashTable → CString → Option CString
  | [], _ => none
  | (k, v) :: rest, key => if k = key then some v else g_hash_table_lookup rest key

/-! ## The account records -/

/-- Record `struct ofono_account` -/
structure OfonoAccount where
  account_name : CString
  index : Int
  params : GHashTable
  deriving DecidableEq, Repr

/-- What ends the process: `g_error` (always fatal in GLib) with its message,
or the dereference of a `NULL` pointer. -/
inductive Fatal where
  | g_error (message : CString)
  | null_dereference
  deriving DecidableEq, Repr

deriving instance DecidableEq for Except

/-- Lines 203-209: the iteration over `sim_names`; the first entry whose key is
`modem_name` gives the `DisplayName` parameter and ends the iteration. -/
def sim_names_loop (modem_name : CString) : GHashTable → GHashTable → GHashTable
  | [], params => params
  | (key, value) :: rest, params =>
    if key = modem_name then g_hash_table_insert params "DisplayName".toList value
    else sim_names_loop modem_name rest params

/-- Lines 178-211: one pass of the body of the `for` loop of
`mcp_account_manager_ofono_init`; the record it appends, or the `g_error`. -/
def init_loop_body ( account_prefix modem_prefix : CString) (sim_names : GHashTable)
    (index : Int) : Except Fatal OfonoAccount :=
  let (account_name, bytes_needed) :=
    g_snprintf ACCOUNT_NAME_LEN (account_name_fmt account_prefix index)
  if bytes_needed > ACCOUNT_NAME_LEN then
    .error (.g_error ("Account name '".toList ++ account_name_fmt account_prefix index
      ++ "' was too long.".toList))
  else
    let (modem_name, bytes_needed) :=
      g_snprintf MODEM_NAME_LEN (modem_name_fmt modem_prefix index)
    if bytes_needed > MODEM_NAME_LEN then
      .error (.g_error ("Modem name '".toList ++ modem_name_fmt modem_prefix index
        ++ "' was too long.".toList))
    else
      let params := g_hash_table_new
      let params := g_hash_table_insert params "manager".toList "ofono".toList
      let params := g_hash_table_insert params "protocol".toList "ofono".toList
      let params := g_hash_table_insert params "Enabled".toList "true".toList
      let params := g_hash_table_insert params "ConnectAutomatically".toList "true".toList
      let params := g_hash_table_insert params "always_dispatch".toList "true".toList
      let params := g_hash_table_insert params "param-modem-objpath".toList modem_name
      let params := sim_names_loop modem_name sim_names params
      .ok { account_name := account_name, index := index, params := params }

/-- Lines 177-212: `for (index = 0; index < num_modems; index++)`, started at
`index` with `remaining = num_modems - index` passes still to run; each pass
appends its record to `accounts` (`g_list_append`). -/
def init_loop ( account_prefix modem_prefix : CString) (sim_names : GHashTable) :
    Nat → Int → List OfonoAccount → Except Fatal (List OfonoAccount)
  | 0, _, accounts => .ok accounts
  | remaining + 1, index, accounts =>
    match init_loop_body account_prefix modem_prefix sim_names index with
    | .error e => .error e
    | .ok account =>
      init_loop account_prefix modem_prefix sim_names remaining (index + 1) (accounts ++ [account])

/-- Record synthesis, lines 177-212 from `index = 0` and an empty list: the
loop runs `num_modems` passes when `num_modems` is positive and none otherwise. -/
def synthesizeRecords (num_modems : Int) ( account_prefix modem_prefix : CString)
    (sim_names : GHashTable) : Except Fatal (List OfonoAccount) :=
  init_loop account_prefix modem_prefix sim_names num_modems.toNat 0 []

/-! ## Initialisation: the modem count, the SIM names, the prefixes -/

/-- Function `g_ascii_isspace` of GLib: space, tab, line feed, form feed, carriage return. -/
def g_ascii_isspace (c : Char) : Bool :=
  c = ' ' || c = '\t' || c = '\n' || c = '\x0c' || c = '\r'

/-- Function `g_strstrip`: leading and trailing white space removed. -/
def g_strstrip (s : CString) : CString :=
  ((s.dropWhile g_ascii_isspace).reverse.dropWhile g_ascii_isspace).reverse

/-- Function `isspace` of the C library (C locale). -/
def isspace (c : Char) : Bool :=
  c = ' ' || c = '\t' || c = '\n' || c = '\x0b' || c = '\x0c' || c = '\r'

/-- The digit loop of `atoi`: the value of the leading run of decimal digits. -/
def atoi_digits : CString → Int → Int
  | [], acc => acc
  | c :: rest, acc =>
    if c.isDigit then atoi_digits rest (acc * 10 + ((c.toNat - 48 : Nat) : Int)) else acc

/-- Function `atoi (nptr)` of the C library: white space is skipped, then an optional
sign and the leading digits are read; text with no digits gives 0. A `NULL`
argument is dereferenced. (A value outside the range of `int` is undefined in
C; here it is the mathematical value.) -/
def atoi (nptr : Option CString) : Except Fatal Int :=
  match nptr with
  | none => .error .null_dereference
  | some s =>
    match s.dropWhile isspace with
    | '-' :: rest => .ok (- atoi_digits rest 0)
    | '+' :: rest => .ok (atoi_digits rest 0)
    | rest => .ok (atoi_digits rest 0)

/-- The environment variables the plugin reads (`g_getenv`); `none` is unset. -/
structure Environment where
  FORCE_RIL_NUM_MODEMS : Option CString
  MCP_OFONO_MODEM_PREFIX : Option CString
  MCP_OFONO_ACCOUNT_PREFIX : Option CString
  deriving DecidableEq, Repr

/-- What the system answers during initialisation.
* `getprop_executable`: `g_file_test ("/usr/bin/getprop", G_FILE_TEST_IS_EXECUTABLE)`;
* `rild_libpath`, `ril_num_slots`: the standard output of the two `getprop`
  commands when `g_spawn_command_line_sync` returns `TRUE`, `none` when it
  returns `FALSE` (the output pointer then keeps its initial `NULL`);
* `uid`: `getuid ()`;
* `SimNames`: the `a{ss}` dictionary of the `SimNames` property, `none` when the
  system bus or the D-Bus call fails. -/
structure System where
  getprop_executable : Bool
  rild_libpath : Option CString
  ril_num_slots : Option CString
  uid : Nat
  SimNames : Option (List (CString × CString))
  deriving DecidableEq, Repr

/-- Lines 91-120: the value of `num_modems`. `.ok none` is the early `return`
of lines 99 and 107, which leaves initialisation with the account list still
empty. -/
def determine_num_modems (env : Environment) (sys : System) : Except Fatal (Option Int) :=
  match env.FORCE_RIL_NUM_MODEMS with
  | some force_num_modems =>
    match atoi (some force_num_modems) with
    | .error e => .error e
    | .ok num_modems => .ok (some num_modems)
  | none =>
    if !sys.getprop_executable then .ok none
    else
      match sys.rild_libpath with
      | none => .ok none
      | some output =>
        if (g_strstrip output).length ≠ 0 then
          match atoi sys.ril_num_slots with
          | .error e => .error e
          | .ok num_modems => .ok (some num_modems)
        else .ok (some 0)

/-- The `int` that `%d` prints for the `uid_t` returned by `getuid ()`. -/
def uid_as_int (uid : Nat) : Int :=
  if uid % 2 ^ 32 < 2 ^ 31 then ((uid % 2 ^ 32 : Nat) : Int) else ((uid % 2 ^ 32 : Nat) : Int) - 2 ^ 32

/-- Lines 122-166: the `sim_names` table; every entry of the reply is inserted,
a failure leaves the table empty. -/
def fetch_sim_names (sys : System) : GHashTable :=
  match sys.SimNames with
  | none => g_hash_table_new
  | some dict => dict.foldl (fun sim_names e => g_hash_table_insert sim_names e.1 e.2) g_hash_table_new

/-- Lines 168-175: `g_string_new (g_getenv (...))` is the empty string for an
unset variable; an empty string is replaced by the default. -/
def prefix_or_default (value : Option CString) (dflt : CString) : CString :=
  let s := value.getD []
  if s.length = 0 then s ++ dflt else s

/-- Function `mcp_account_manager_ofono_init`: the account list `self->priv->accounts`
after initialisation, or what ended the process. -/
def mcp_account_manager_ofono_init (env : Environment) (sys : System) :
    Except Fatal (List OfonoAccount) :=
  match determine_num_modems env sys with
  | .error e => .error e
  | .ok none => .ok []
  | .ok (some num_modems) =>
    let dbus_path_fmt := "/org/freedesktop/Accounts/User".toList ++ fmt_d (uid_as_int sys.uid)
    let (_, bytes_needed) := g_snprintf DBUS_PATH_LEN dbus_path_fmt
    if bytes_needed > DBUS_PATH_LEN then
      .error (.g_error ("D-Bus path '".toList ++ dbus_path_fmt ++ "' was too long.".toList))
    else
      let sim_names := fetch_sim_names sys
      let modem_prefix := prefix_or_default env.MCP_OFONO_MODEM_PREFIX "ril_".toList
      let account_prefix := prefix_or_default env.MCP_OFONO_ACCOUNT_PREFIX "account".toList
      synthesizeRecords num_modems account_prefix modem_prefix sim_names

/-! ## The storage interface -/

/-- Record `struct _McpAccountManagerOfonoPrivate`: the state of the plugin object. -/
structure McpAccountManagerOfono where
  accounts : List OfonoAccount
  deriving DecidableEq, Repr

/-- The scan shared by `get`, `get_identifier` and `get_restrictions`
(lines 247-253, 308-314, 331-337): the first record whose name `strcmp`
finds equal to `account_name`, `none` when `found` stays 0. -/
def find_account : List OfonoAccount → CString → Option OfonoAccount
  | [], _ => none
  | account :: l, account_name =>
    if account_name = account.account_name then some account else find_account l account_name

/-- Lines 233-236: each name is put in front of the result (`g_list_prepend`). -/
def list_loop : List OfonoAccount → List CString → List CString
  | [], accounts => accounts
  | account :: l, accounts => list_loop l (account.account_name :: accounts)

/-- Function `account_manager_ofono_list` -/
def account_manager_ofono_list (self : McpAccountManagerOfono) : List CString :=
  list_loop self.accounts []

/-- One call `mcp_account_manager_set_value (am, account_name, key, value)`;
a `NULL` value is `none`. -/
structure SetValue where
  account_name : CString
  key : CString
  value : Option CString
  deriving DecidableEq, Repr

/-- Function `account_manager_ofono_get`: the returned `gboolean` and the calls made to
`mcp_account_manager_set_value`, in order. A `NULL` key is `none`. -/
def account_manager_ofono_get (self : McpAccountManagerOfono) (account_name : CString)
    (key : Option CString) : Bool × List SetValue :=
  match find_account self.accounts account_name with
  | none => (false, [])
  | some account =>
    match key with
    | none =>
      (true, account.params.map (fun e => { account_name := account_name, key := e.1, value := some e.2 }))
    | some key =>
      (true, [{ account_name := account_name, key := key,
                value := g_hash_table_lookup account.params key }])

/-- Function `account_manager_ofono_set`: the returned `gboolean` and the state after. -/
def account_manager_ofono_set (self : McpAccountManagerOfono) (_account_name : CString)
    (_key : CString) (_val : Option CString) : Bool × McpAccountManagerOfono :=
  (false, self)

/-- The `GError` set by `account_manager_ofono_create`. -/
structure GError where
  domain : CString
  code : CString
  message : CString
  deriving DecidableEq, Repr

/-- Function `account_manager_ofono_create`: the returned account name (`NULL`), the
error raised through `g_set_error`, and the state after. -/
def account_manager_ofono_create (self : McpAccountManagerOfono) (_cm_name : CString)
    (_protocol_name : CString) (_params : GHashTable) :
    Option CString × Option GError × McpAccountManagerOfono :=
  (none,
   some { domain := "TP_ERROR".toList, code := "TP_ERROR_INVALID_ARGUMENT".toList,
          message := "Ofono ril account manager cannot create accounts".toList },
   self)

/-- Function `account_manager_ofono_delete`: the returned `gboolean` and the state after. -/
def account_manager_ofono_delete (self : McpAccountManagerOfono) (_account_name : CString)
    (_key : Option CString) : Bool × McpAccountManagerOfono :=
  (false, self)

/-- Function `account_manager_ofono_commit`: the returned `gboolean` and the state after. -/
def account_manager_ofono_commit (self : McpAccountManagerOfono) : Bool × McpAccountManagerOfono :=
  (false, self)

/-- A `GValue` slot: still unset, or holding a `guint`. -/
inductive GValue where
  | unset
  | uint (v : Nat)
  deriving DecidableEq, Repr

/-- Function `account_manager_ofono_get_identifier`: the content of `identifier` after
the call. `g_value_set_uint` receives the `int` index converted to `guint`. -/
def account_manager_ofono_get_identifier (self : McpAccountManagerOfono)
    (account_name : CString) (identifier : GValue) : GValue :=
  match find_account self.accounts account_name with
  | none => identifier
  | some account => .uint (account.index % 2 ^ 32).toNat

/-- Flag `TP_STORAGE_RESTRICTION_FLAG_CANNOT_SET_PARAMETERS` of telepathy-glib. -/
def TP_STORAGE_RESTRICTION_FLAG_CANNOT_SET_PARAMETERS : Nat := 1

/-- Flag `TP_STORAGE_RESTRICTION_FLAG_CANNOT_SET_ENABLED` of telepathy-glib. -/
def TP_STORAGE_RESTRICTION_FLAG_CANNOT_SET_ENABLED : Nat := 2

/-- Flag `TP_STORAGE_RESTRICTION_FLAG_CANNOT_SET_PRESENCE` of telepathy-glib. -/
def TP_STORAGE_RESTRICTION_FLAG_CANNOT_SET_PRESENCE : Nat := 4

/-- Flag `TP_STORAGE_RESTRICTION_FLAG_CANNOT_SET_SERVICE` of telepathy-glib. -/
def TP_STORAGE_RESTRICTION_FLAG_CANNOT_SET_SERVICE : Nat := 8

/-- Function `account_manager_ofono_get_restrictions` -/
def account_manager_ofono_get_restrictions (self : McpAccountManagerOfono)
    (account_name : CString) : Nat :=
  match find_account self.accounts account_name with
  | none => G_MAXUINT
  | some _ =>
    TP_STORAGE_RESTRICTION_FLAG_CANNOT_SET_PARAMETERS |||
      TP_STORAGE_RESTRICTION_FLAG_CANNOT_SET_ENABLED |||
      TP_STORAGE_RESTRICTION_FLAG_CANNOT_SET_PRESENCE |||
      TP_STORAGE_RESTRICTION_FLAG_CANNOT_SET_SERVICE

/-! ## Proof-side descriptions of one pass of the loop -/

/-- Neither length check of a pass fires at `index`: the full account name
needs at most `ACCOUNT_NAME_LEN` bytes and the full modem name at most
`MODEM_NAME_LEN`. -/
def within_limits ( account_prefix modem_prefix : CString) (index : Int) : Prop :=
  (account_name_fmt account_prefix index).length ≤ 80 ∧
    (modem_name_fmt modem_prefix index).length ≤ 40

/-- The six parameters every record gets, in insertion order. -/
def baseline_params (modem_name : CString) : GHashTable :=
  [("manager".toList, "ofono".toList), ("protocol".toList, "ofono".toList),
   ("Enabled".toList, "true".toList), ("ConnectAutomatically".toList, "true".toList),
   ("always_dispatch".toList, "true".toList), ("param-modem-objpath".toList, modem_name)]

/-- The record a pass appends at `index` when neither length check fires:
the two buffers hold the first 79 and 39 characters of the formatted texts. -/
def record_at ( account_prefix modem_prefix : CString) (sim_names : GHashTable)
    (index : Int) : OfonoAccount :=
  { account_name := (account_name_fmt account_prefix index).take 79
    index := index
    params := sim_names_loop ((modem_name_fmt modem_prefix index).take 39) sim_names
      (baseline_params ((modem_name_fmt modem_prefix index).take 39)) }

/-- The number a run of decimal digits denotes (used to tell the texts of two
indices apart). -/
def digits_value (l : List Char) : Nat :=
  l.foldl (fun acc c => acc * 10 + (c.toNat - 48)) 0

/-! ## Concrete inputs used below -/

/-- No variable set, the modem count forced to `count`. -/
def env_forced (count : CString) : Environment :=
  { FORCE_RIL_NUM_MODEMS := some count, MCP_OFONO_MODEM_PREFIX := none,
    MCP_OFONO_ACCOUNT_PREFIX := none }

/-- A device without `getprop` whose account service does not answer. -/
def sys_bare : System :=
  { getprop_executable := false, rild_libpath := none, ril_num_slots := none, uid := 32011,
    SimNames := none }

/-- A device where `getprop rild.libpath` answers and the spawn of
`getprop ril.num_slots` fails. -/
def sys_slot_query_fails : System :=
  { getprop_executable := true, rild_libpath := some "/system/lib/libril.so\n".toList,
    ril_num_slots := none, uid := 32011, SimNames := some [] }

/-- An account prefix of 67 characters: with `ofono/ofono/` before it and one
digit after it the account name has 80 characters. -/
def prefix67 : CString := List.replicate 67 'a'

/-- An account prefix of 68 characters: the account name of index 0 has 81. -/
def prefix68 : CString := List.replicate 68 'a'

/-- A modem prefix of 38 characters: with `/` before it and one digit after it
the modem name has 40 characters. -/
def prefix38 : CString := List.replicate 38 'm'

/-- The count forced to 2 and an account prefix of 67 characters. -/
def env_two_long_names : Environment :=
  { FORCE_RIL_NUM_MODEMS := some "2".toList, MCP_OFONO_MODEM_PREFIX := none,
    MCP_OFONO_ACCOUNT_PREFIX := some prefix67 }

/-- The count forced to 1, an account prefix of 67 and a modem prefix of 38
characters. -/
def env_one_long_name : Environment :=
  { FORCE_RIL_NUM_MODEMS := some "1".toList, MCP_OFONO_MODEM_PREFIX := some prefix38,
    MCP_OFONO_ACCOUNT_PREFIX := some prefix67 }

/-- No variable set. -/
def env_unset : Environment :=
  { FORCE_RIL_NUM_MODEMS := none, MCP_OFONO_MODEM_PREFIX := none,
    MCP_OFONO_ACCOUNT_PREFIX := none }

/-- A SIM-name table with an entry for the third modem only. -/
def sim_names_third : GHashTable := [("/ril_2".toList, "SIM 3".toList)]

/-- The store holding the one record synthesised for index 0 with the default
prefixes and no SIM name. -/
def store1 : McpAccountManagerOfono :=
  { accounts := [
      { account_name := "ofono/ofono/account0".toList, index := 0,
        params := [("manager".toList, "ofono".toList), ("protocol".toList, "ofono".toList),
          ("Enabled".toList, "true".toList), ("ConnectAutomatically".toList, "true".toList),
          ("always_dispatch".toList, "true".toList),
          ("param-modem-objpath".toList, "/ril_0".toList)] }] }

/-- A store of two records with distinct names. -/
def store2 : McpAccountManagerOfono :=
  { accounts := [
      { account_name := "ofono/ofono/account0".toList, index := 0, params := [] },
      { account_name := "ofono/ofono/account1".toList, index := 1, params := [] }] }

/-! ## Lemmas on the hash table and the account scan -/

theorem g_hash_table_lookup_some_mem (t : GHashTable) (key v : CString)
    (h : g_hash_table_lookup t key = some v) : (key, v) ∈ t := by
  induction t with
  | nil => simp [g_hash_table_lookup] at h
  | cons e rest ih =>
    obtain ⟨k, w⟩ := e
    by_cases hk : k = key
    · simp [g_hash_table_lookup, hk] at h
      simp [hk, h]
    · simp [g_hash_table_lookup, hk] at h
      exact List.mem_cons_of_mem _ (ih h)

theorem g_hash_table_lookup_none_iff (t : GHashTable) (key : CString) :
    g_hash_table_lookup t key = none ↔ ∀ v, (key, v) ∉ t := by
  induction t with
  | nil => simp [g_hash_table_lookup]
  | cons e rest ih =>
    obtain ⟨k, w⟩ := e
    by_cases hk : k = key
    · subst hk
      simp only [g_hash_table_lookup, if_true]
      constructor
      · intro h; cases h
      · intro h; exact absurd (List.mem_cons_self _ _) (h w)
    · have hk2 : ¬ key = k := fun h => hk h.symm
      simp [g_hash_table_lookup, hk, hk2, ih]

theorem find_account_eq_none_iff (l : List OfonoAccount) (account_name : CString) :
    find_account l account_name = none ↔ ∀ a ∈ l, a.account_name ≠ account_name := by
  induction l with
  | nil => simp [find_account]
  | cons a rest ih =>
    by_cases h : account_name = a.account_name
    · simp [find_account, h]
    · have h2 : ¬ a.account_name = account_name := fun e => h e.symm
      simp [find_account, h, h2, ih]

theorem find_account_first (pre post : List OfonoAccount) (account : OfonoAccount)
    (account_name : CString) (hname : account.account_name = account_name)
    (hpre : ∀ b ∈ pre, b.account_name ≠ account_name) :
    find_account (pre ++ account :: post) account_name = some account := by
  induction pre with
  | nil => simp [find_account, hname]
  | cons b rest ih =>
    have hb : ¬ account_name = b.account_name := fun e => hpre b (List.mem_cons_self _ _) e.symm
    simp only [List.cons_append, find_account, hb, if_false]
    exact ih (fun c hc => hpre c (List.mem_cons_of_mem _ hc))

theorem find_account_some_name (l : List OfonoAccount) (account_name : CString)
    (account : OfonoAccount) (h : find_account l account_name = some account) :
    account ∈ l ∧ account.account_name = account_name := by
  induction l with
  | nil => simp [find_account] at h
  | cons a rest ih =>
    by_cases hn : account_name = a.account_name
    · simp [find_account, hn] at h
      subst h
      simp [hn]
    · simp only [find_account, hn, if_false] at h
      exact ⟨List.mem_cons_of_mem _ (ih h).1, (ih h).2⟩

theorem find_account_isSome_iff (l : List OfonoAccount) (account_name : CString) :
    (find_account l account_name).isSome = true ↔ ∃ a ∈ l, a.account_name = account_name := by
  constructor
  · intro h
    obtain ⟨a, ha⟩ := Option.isSome_iff_exists.mp h
    exact ⟨a, find_account_some_name l account_name a ha⟩
  · rintro ⟨a, ha, hn⟩
    cases hf : find_account l account_name with
    | some b => rfl
    | none => exact absurd hn ((find_account_eq_none_iff l account_name).mp hf a ha)

theorem find_account_of_nodup (l : List OfonoAccount)
    (hdistinct : (l.map (fun a => a.account_name)).Nodup) (r : OfonoAccount) (hr : r ∈ l) :
    find_account l r.account_name = some r := by
  induction l with
  | nil => cases hr
  | cons a rest ih =>
    rw [List.map_cons, List.nodup_cons] at hdistinct
    rcases List.mem_cons.mp hr with h | h
    · subst h
      simp [find_account]
    · have hne : ¬ r.account_name = a.account_name := by
        intro e
        exact hdistinct.1 (e ▸ List.mem_map_of_mem (fun a => a.account_name) h)
      simp only [find_account, hne, if_false]
      exact ih hdistinct.2 h

theorem list_loop_eq (l : List OfonoAccount) (accounts : List CString) :
    list_loop l accounts = (l.map (fun a => a.account_name)).reverse ++ accounts := by
  induction l generalizing accounts with
  | nil => simp [list_loop]
  | cons a rest ih => simp [list_loop, ih]

/-! ## Lemmas on the synthesis loop -/

theorem init_loop_body_ok (ap mp : CString) (sim : GHashTable) (i : Int)
    (h : within_limits ap mp i) :
    init_loop_body ap mp sim i = .ok (record_at ap mp sim i) := by
  obtain ⟨h1, h2⟩ := h
  have h1' : ¬ ((account_name_fmt ap i).length : Int) > 80 := by omega
  have h2' : ¬ ((modem_name_fmt mp i).length : Int) > 40 := by omega
  simp only [init_loop_body, g_snprintf, ACCOUNT_NAME_LEN, MODEM_NAME_LEN, Nat.cast_ofNat,
    h1', h2', if_false, record_at, baseline_params, g_hash_table_new, g_hash_table_insert]
  simp

theorem init_loop_body_error (ap mp : CString) (sim : GHashTable) (i : Int)
    (h : ¬ within_limits ap mp i) :
    ∃ msg, init_loop_body ap mp sim i = .error (.g_error msg) := by
  by_cases h1 : ((account_name_fmt ap i).length : Int) > 80
  · simp only [init_loop_body, g_snprintf, ACCOUNT_NAME_LEN, Nat.cast_ofNat, h1, if_true]
    exact ⟨_, rfl⟩
  · have h2 : ((modem_name_fmt mp i).length : Int) > 40 := by
      unfold within_limits at h
      omega
    simp only [init_loop_body, g_snprintf, ACCOUNT_NAME_LEN, MODEM_NAME_LEN,
      Nat.cast_ofNat, h1, h2, if_true, if_false]
    exact ⟨_, rfl⟩

theorem init_loop_zero (ap mp : CString) (sim : GHashTable) (idx : Int)
    (acc : List OfonoAccount) : init_loop ap mp sim 0 idx acc = .ok acc := rfl

theorem init_loop_succ (ap mp : CString) (sim : GHashTable) (n : Nat) (idx : Int)
    (acc : List OfonoAccount) :
    init_loop ap mp sim (n + 1) idx acc =
      match init_loop_body ap mp sim idx with
      | .error e => .error e
      | .ok account => init_loop ap mp sim n (idx + 1) (acc ++ [account]) := rfl

theorem init_loop_ok (ap mp : CString) (sim : GHashTable) (n : Nat) :
    ∀ (idx : Int) (acc : List OfonoAccount),
      (∀ k : Nat, k < n → within_limits ap mp (idx + k)) →
      init_loop ap mp sim n idx acc =
        .ok (acc ++ (List.range n).map (fun k : Nat => record_at ap mp sim (idx + k))) := by
  induction n with
  | zero => intro idx acc _; simp [init_loop_zero]
  | succ n ih =>
    intro idx acc h
    have h0 : within_limits ap mp idx := by simpa using h 0 (Nat.succ_pos n)
    have hrest : ∀ k : Nat, k < n → within_limits ap mp (idx + 1 + k) := by
      intro k hk
      have := h (k + 1) (Nat.succ_lt_succ hk)
      have e : idx + 1 + (k : Int) = idx + ((k + 1 : Nat) : Int) := by push_cast; ring
      rw [e]; exact this
    rw [init_loop_succ, init_loop_body_ok ap mp sim idx h0]
    simp only []
    rw [ih (idx + 1) _ hrest, List.range_succ_eq_map]
    simp only [List.map_cons, List.map_map, List.append_assoc, List.singleton_append,
      Nat.cast_zero, add_zero]
    congr 3
    apply List.map_congr_left
    intro k _
    simp only [Function.comp, Nat.succ_eq_add_one]
    congr 1
    push_cast; ring

theorem init_loop_error (ap mp : CString) (sim : GHashTable) (n : Nat) :
    ∀ (idx : Int) (acc : List OfonoAccount),
      (∃ k : Nat, k < n ∧ ¬ within_limits ap mp (idx + k)) →
      ∃ msg, init_loop ap mp sim n idx acc = .error (.g_error msg) := by
  induction n with
  | zero => rintro idx acc ⟨k, hk, _⟩; omega
  | succ n ih =>
    rintro idx acc ⟨k, hk, hbad⟩
    by_cases h0 : within_limits ap mp idx
    · have hk0 : k ≠ 0 := by
        rintro rfl
        simp at hbad
        exact hbad h0
      obtain ⟨j, rfl⟩ := Nat.exists_eq_succ_of_ne_zero hk0
      have e : idx + ((j + 1 : Nat) : Int) = idx + 1 + (j : Int) := by push_cast; ring
      rw [init_loop_succ, init_loop_body_ok ap mp sim idx h0]
      exact ih (idx + 1) _ ⟨j, by omega, by rw [← e]; exact hbad⟩
    · obtain ⟨msg, hmsg⟩ := init_loop_body_error ap mp sim idx h0
      exact ⟨msg, by rw [init_loop_succ, hmsg]⟩

/-- Whether some pass of the loop meets a text beyond its limit is decided by
the passes `0 .. num_modems - 1`. -/
theorem synthesizeRecords_ok (num_modems : Int) (ap mp : CString) (sim : GHashTable)
    (h : ∀ k : Nat, (k : Int) < num_modems → within_limits ap mp k) :
    synthesizeRecords num_modems ap mp sim =
      .ok ((List.range num_modems.toNat).map (fun k : Nat => record_at ap mp sim k)) := by
  unfold synthesizeRecords
  rw [init_loop_ok ap mp sim num_modems.toNat 0 [] (by
    intro k hk
    have : (k : Int) < num_modems := by omega
    simpa using h k this)]
  simp

theorem synthesizeRecords_error (num_modems : Int) (ap mp : CString) (sim : GHashTable)
    (h : ∃ k : Nat, (k : Int) < num_modems ∧ ¬ within_limits ap mp k) :
    ∃ msg, synthesizeRecords num_modems ap mp sim = .error (.g_error msg) := by
  obtain ⟨k, hk, hbad⟩ := h
  unfold synthesizeRecords
  exact init_loop_error ap mp sim num_modems.toNat 0 [] ⟨k, by omega, by simpa using hbad⟩

theorem synthesizeRecords_ok_inv (num_modems : Int) (ap mp : CString) (sim : GHashTable)
    (accounts : List OfonoAccount) (h : synthesizeRecords num_modems ap mp sim = .ok accounts) :
    (∀ k : Nat, (k : Int) < num_modems → within_limits ap mp k) ∧
      accounts = (List.range num_modems.toNat).map (fun k : Nat => record_at ap mp sim k) := by
  have hall : ∀ k : Nat, (k : Int) < num_modems → within_limits ap mp k := by
    by_contra hne
    push_neg at hne
    obtain ⟨msg, hmsg⟩ := synthesizeRecords_error num_modems ap mp sim hne
    rw [hmsg] at h
    cases h
  refine ⟨hall, ?_⟩
  rw [synthesizeRecords_ok num_modems ap mp sim hall] at h
  exact (Except.ok.inj h).symm

/-! ## Lemmas on `%d` and on initialisation -/

theorem toDigits_length_le (n e : Nat) (he : 0 < e) (h : n < 10 ^ e) :
    (Nat.toDigits 10 n).length ≤ e := by
  unfold Nat.toDigits
  exact Nat.toDigitsCore_length 10 (by decide) (n + 1) n e h he

theorem fmt_d_natCast (k : Nat) : fmt_d (k : Int) = Nat.toDigits 10 k := by
  simp [fmt_d]

theorem fmt_d_length_le (i : Int) (h1 : -(2 ^ 31) ≤ i) (h2 : i < 2 ^ 31) :
    (fmt_d i).length ≤ 11 := by
  unfold fmt_d
  split
  · have : i.toNat < 10 ^ 10 := by omega
    have := toDigits_length_le i.toNat 10 (by decide) this
    omega
  · have : i.natAbs < 10 ^ 10 := by omega
    have := toDigits_length_le i.natAbs 10 (by decide) this
    simp only [List.length_cons]
    omega

theorem uid_as_int_range (uid : Nat) :
    -(2 ^ 31) ≤ uid_as_int uid ∧ uid_as_int uid < 2 ^ 31 := by
  unfold uid_as_int
  have : uid % 2 ^ 32 < 2 ^ 32 := Nat.mod_lt _ (by norm_num)
  split <;> omega

theorem mcp_account_manager_ofono_init_of_count (env : Environment) (sys : System)
    (num_modems : Int) (h : determine_num_modems env sys = .ok (some num_modems)) :
    mcp_account_manager_ofono_init env sys =
      synthesizeRecords num_modems
        (prefix_or_default env.MCP_OFONO_ACCOUNT_PREFIX "account".toList)
        (prefix_or_default env.MCP_OFONO_MODEM_PREFIX "ril_".toList)
        (fetch_sim_names sys) := by
  have hlen := fmt_d_length_le (uid_as_int sys.uid) (uid_as_int_range sys.uid).1
    (uid_as_int_range sys.uid).2
  have hfit : ¬ ((("/org/freedesktop/Accounts/User".toList ++
      fmt_d (uid_as_int sys.uid)).length : Nat) : Int) > 80 := by
    have : "/org/freedesktop/Accounts/User".toList.length = 30 := by decide
    rw [List.length_append, this]
    omega
  simp only [mcp_account_manager_ofono_init, h, g_snprintf, DBUS_PATH_LEN, Nat.cast_ofNat, hfit,
    if_false]

/-! ## Two indices never print alike -/

theorem digitChar_value (d : Nat) (h : d < 10) : (Nat.digitChar d).toNat - 48 = d := by
  interval_cases d <;> decide

theorem toDigitsCore_append (fuel : Nat) : ∀ (n : Nat) (ds : List Char),
    Nat.toDigitsCore 10 fuel n ds = Nat.toDigitsCore 10 fuel n [] ++ ds := by
  induction fuel with
  | zero => intro n ds; simp [Nat.toDigitsCore]
  | succ fuel ih =>
    intro n ds
    simp only [Nat.toDigitsCore]
    split
    · simp
    · rw [ih (n / 10) (Nat.digitChar (n % 10) :: ds), ih (n / 10) [Nat.digitChar (n % 10)]]
      simp

theorem digits_value_toDigitsCore (fuel : Nat) : ∀ n : Nat, n < fuel →
    digits_value (Nat.toDigitsCore 10 fuel n []) = n := by
  induction fuel with
  | zero => intro n h; omega
  | succ fuel ih =>
    intro n h
    simp only [Nat.toDigitsCore]
    split
    · simp only [digits_value, List.foldl_cons, List.foldl_nil, zero_mul, zero_add]
      rw [digitChar_value _ (Nat.mod_lt _ (by decide))]
      omega
    · rw [toDigitsCore_append]
      have hlt : n / 10 < fuel := by omega
      have := ih (n / 10) hlt
      simp only [digits_value, List.foldl_append, List.foldl_cons, List.foldl_nil] at this ⊢
      rw [this, digitChar_value _ (Nat.mod_lt _ (by decide))]
      omega

theorem toDigits_injective (a b : Nat) (h : Nat.toDigits 10 a = Nat.toDigits 10 b) : a = b := by
  have ha := digits_value_toDigitsCore (a + 1) a (Nat.lt_succ_self a)
  have hb := digits_value_toDigitsCore (b + 1) b (Nat.lt_succ_self b)
  unfold Nat.toDigits at h
  rw [h] at ha
  omega

theorem account_name_fmt_injective (ap : CString) (a b : Nat)
    (h : account_name_fmt ap (a : Int) = account_name_fmt ap (b : Int)) : a = b := by
  unfold account_name_fmt at h
  rw [fmt_d_natCast, fmt_d_natCast] at h
  exact toDigits_injective a b (List.append_cancel_left h)

/-! ## Lemmas on the `DisplayName` parameter -/

theorem sim_names_loop_of_not_mem (modem_name : CString) (sim : GHashTable)
    (h : ∀ v, (modem_name, v) ∉ sim) (params : GHashTable) :
    sim_names_loop modem_name sim params = params := by
  induction sim with
  | nil => rfl
  | cons e rest ih =>
    obtain ⟨k, w⟩ := e
    have hk : ¬ k = modem_name := by
      intro hk
      exact h w (by simp [hk])
    simp only [sim_names_loop, hk, if_false]
    exact ih (fun v hv => h v (List.mem_cons_of_mem _ hv))

theorem sim_names_loop_of_mem (modem_name v : CString) (sim : GHashTable)
    (hkeys : (sim.map Prod.fst).Nodup) (hmem : (modem_name, v) ∈ sim) (params : GHashTable) :
    sim_names_loop modem_name sim params =
      g_hash_table_insert params "DisplayName".toList v := by
  induction sim with
  | nil => cases hmem
  | cons e rest ih =>
    obtain ⟨k, w⟩ := e
    rw [List.map_cons, List.nodup_cons] at hkeys
    by_cases hk : k = modem_name
    · subst hk
      simp only [sim_names_loop, if_true]
      rcases List.mem_cons.mp hmem with h | h
      · cases h; rfl
      · exact absurd (List.mem_map_of_mem Prod.fst h) hkeys.1
    · simp only [sim_names_loop, hk, if_false]
      rcases List.mem_cons.mp hmem with h | h
      · cases h; exact absurd rfl hk
      · exact ih hkeys.2 h

theorem nodup_keys_value_unique (sim : GHashTable) (hkeys : (sim.map Prod.fst).Nodup)
    (k v w : CString) (hv : (k, v) ∈ sim) (hw : (k, w) ∈ sim) : v = w := by
  induction sim with
  | nil => cases hv
  | cons e rest ih =>
    rw [List.map_cons, List.nodup_cons] at hkeys
    rcases List.mem_cons.mp hv with h1 | h1 <;> rcases List.mem_cons.mp hw with h2 | h2
    · rw [← h2] at h1; exact (Prod.mk.inj h1).2
    · exact absurd (List.mem_map_of_mem Prod.fst h2) (by have := hkeys.1; rw [← h1] at this; exact this)
    · exact absurd (List.mem_map_of_mem Prod.fst h1) (by have := hkeys.1; rw [← h2] at this; exact this)
    · exact ih hkeys.2 h1 h2

theorem baseline_params_insert_display_name (modem_name v : CString) :
    g_hash_table_insert (baseline_params modem_name) "DisplayName".toList v =
      baseline_params modem_name ++ [("DisplayName".toList, v)] := by
  have h1 : ¬ "manager".toList = "DisplayName".toList := by decide
  have h2 : ¬ "protocol".toList = "DisplayName".toList := by decide
  have h3 : ¬ "Enabled".toList = "DisplayName".toList := by decide
  have h4 : ¬ "ConnectAutomatically".toList = "DisplayName".toList := by decide
  have h5 : ¬ "always_dispatch".toList = "DisplayName".toList := by decide
  have h6 : ¬ "param-modem-objpath".toList = "DisplayName".toList := by decide
  simp only [baseline_params, g_hash_table_insert, h1, h2, h3, h4, h5, h6, if_false,
    List.cons_append, List.nil_append]

theorem baseline_params_lookup_display_name (modem_name : CString) :
    g_hash_table_lookup (baseline_params modem_name) "DisplayName".toList = none := by
  have h1 : ¬ "manager".toList = "DisplayName".toList := by decide
  have h2 : ¬ "protocol".toList = "DisplayName".toList := by decide
  have h3 : ¬ "Enabled".toList = "DisplayName".toList := by decide
  have h4 : ¬ "ConnectAutomatically".toList = "DisplayName".toList := by decide
  have h5 : ¬ "always_dispatch".toList = "DisplayName".toList := by decide
  have h6 : ¬ "param-modem-objpath".toList = "DisplayName".toList := by decide
  simp only [baseline_params, g_hash_table_lookup, h1, h2, h3, h4, h5, h6, if_false]

theorem baseline_params_lookup_after_insert (modem_name v : CString) :
    g_hash_table_lookup (baseline_params modem_name ++ [("DisplayName".toList, v)])
      "DisplayName".toList = some v := by
  have h1 : ¬ "manager".toList = "DisplayName".toList := by decide
  have h2 : ¬ "protocol".toList = "DisplayName".toList := by decide
  have h3 : ¬ "Enabled".toList = "DisplayName".toList := by decide
  have h4 : ¬ "ConnectAutomatically".toList = "DisplayName".toList := by decide
  have h5 : ¬ "always_dispatch".toList = "DisplayName".toList := by decide
  have h6 : ¬ "param-modem-objpath".toList = "DisplayName".toList := by decide
  simp only [baseline_params, List.cons_append, List.nil_append, g_hash_table_lookup, h1, h2, h3,
    h4, h5, h6, if_false, if_true]

theorem sim_names_loop_cases (modem_name : CString) (sim params : GHashTable) :
    sim_names_loop modem_name sim params = params ∨
      ∃ v, sim_names_loop modem_name sim params =
        g_hash_table_insert params "DisplayName".toList v := by
  induction sim with
  | nil => exact Or.inl rfl
  | cons e rest ih =>
    obtain ⟨k, w⟩ := e
    by_cases hk : k = modem_name
    · exact Or.inr ⟨w, by simp only [sim_names_loop, hk, if_true]⟩
    · simp only [sim_names_loop, hk, if_false]
      exact ih

theorem baseline_params_lookup_objpath (modem_name : CString) :
    g_hash_table_lookup (baseline_params modem_name) "param-modem-objpath".toList =
      some modem_name := by
  have h1 : ¬ "manager".toList = "param-modem-objpath".toList := by decide
  have h2 : ¬ "protocol".toList = "param-modem-objpath".toList := by decide
  have h3 : ¬ "Enabled".toList = "param-modem-objpath".toList := by decide
  have h4 : ¬ "ConnectAutomatically".toList = "param-modem-objpath".toList := by decide
  have h5 : ¬ "always_dispatch".toList = "param-modem-objpath".toList := by decide
  simp only [baseline_params, g_hash_table_lookup, h1, h2, h3, h4, h5, if_false, if_true]

theorem baseline_params_lookup_objpath_after_insert (modem_name v : CString) :
    g_hash_table_lookup (baseline_params modem_name ++ [("DisplayName".toList, v)])
      "param-modem-objpath".toList = some modem_name := by
  have h1 : ¬ "manager".toList = "param-modem-objpath".toList := by decide
  have h2 : ¬ "protocol".toList = "param-modem-objpath".toList := by decide
  have h3 : ¬ "Enabled".toList = "param-modem-objpath".toList := by decide
  have h4 : ¬ "ConnectAutomatically".toList = "param-modem-objpath".toList := by decide
  have h5 : ¬ "always_dispatch".toList = "param-modem-objpath".toList := by decide
  simp only [baseline_params, List.cons_append, g_hash_table_lookup, h1, h2, h3, h4, h5,
    if_false, if_true]

theorem g_hash_table_insert_keys (t : GHashTable) (key value : CString) :
    (g_hash_table_insert t key value).map Prod.fst =
      if key ∈ t.map Prod.fst then t.map Prod.fst else t.map Prod.fst ++ [key] := by
  induction t with
  | nil => simp [g_hash_table_insert]
  | cons e rest ih =>
    obtain ⟨k, w⟩ := e
    by_cases hk : k = key
    · subst hk
      simp [g_hash_table_insert]
    · have hk2 : ¬ key = k := fun h => hk h.symm
      simp only [g_hash_table_insert, hk, if_false, List.map_cons, ih, List.mem_cons, hk2,
        false_or]
      split <;> simp

theorem g_hash_table_insert_keys_nodup (t : GHashTable) (key value : CString)
    (h : (t.map Prod.fst).Nodup) : ((g_hash_table_insert t key value).map Prod.fst).Nodup := by
  rw [g_hash_table_insert_keys]
  split
  · exact h
  · rename_i hnot
    rw [List.nodup_append]
    refine ⟨h, List.nodup_singleton _, ?_⟩
    intro a ha hb
    rw [List.mem_singleton] at hb
    subst hb
    exact hnot ha

/-- The table built from the reply of the account service has no key twice,
whatever the reply holds. -/
theorem fetch_sim_names_keys_nodup (sys : System) :
    ((fetch_sim_names sys).map Prod.fst).Nodup := by
  unfold fetch_sim_names
  cases sys.SimNames with
  | none => exact List.nodup_nil
  | some dict =>
    have hgen : ∀ (l : List (CString × CString)) (t : GHashTable), (t.map Prod.fst).Nodup →
        ((l.foldl (fun sim_names e => g_hash_table_insert sim_names e.1 e.2) t).map
          Prod.fst).Nodup := by
      intro l
      induction l with
      | nil => intro t ht; exact ht
      | cons e rest ih =>
        intro t ht
        exact ih _ (g_hash_table_insert_keys_nodup t e.1 e.2 ht)
    exact hgen dict g_hash_table_new List.nodup_nil

/-! ## Record synthesis: the claims -/

/-- C9: record synthesis ends in the fatal `g_error` exactly when some index
below the count has a full account name `ofono/ofono/<prefix><index>` longer
than 80 characters or a full modem name `/<prefix><index>` longer than 40; when
every name is within its limit synthesis completes; and it ends in no other
failure than that `g_error`. -/
theorem synthesizeRecords_fatal_iff (num_modems : Int) ( account_prefix modem_prefix : CString)
    (sim_names : GHashTable) :
    ((∃ e, synthesizeRecords num_modems account_prefix modem_prefix sim_names = .error e) ↔
      ∃ i : Nat, (i : Int) < num_modems ∧
        (80 < ("ofono/ofono/".toList ++ account_prefix ++ fmt_d (i : Int)).length ∨
          40 < ("/".toList ++ modem_prefix ++ fmt_d (i : Int)).length)) ∧
    ((∀ i : Nat, (i : Int) < num_modems →
        ("ofono/ofono/".toList ++ account_prefix ++ fmt_d (i : Int)).length ≤ 80 ∧
          ("/".toList ++ modem_prefix ++ fmt_d (i : Int)).length ≤ 40) →
      ∃ accounts, synthesizeRecords num_modems account_prefix modem_prefix sim_names =
        .ok accounts) ∧
    (∀ e, synthesizeRecords num_modems account_prefix modem_prefix sim_names = .error e →
      ∃ message, e = .g_error message) := by
  have hcomplete : (∀ i : Nat, (i : Int) < num_modems →
        ("ofono/ofono/".toList ++ account_prefix ++ fmt_d (i : Int)).length ≤ 80 ∧
          ("/".toList ++ modem_prefix ++ fmt_d (i : Int)).length ≤ 40) →
      ∃ accounts, synthesizeRecords num_modems account_prefix modem_prefix sim_names =
        .ok accounts :=
    fun h => ⟨_, synthesizeRecords_ok num_modems account_prefix modem_prefix sim_names h⟩
  have hfail : (∃ i : Nat, (i : Int) < num_modems ∧
        (80 < ("ofono/ofono/".toList ++ account_prefix ++ fmt_d (i : Int)).length ∨
          40 < ("/".toList ++ modem_prefix ++ fmt_d (i : Int)).length)) →
      ∃ message, synthesizeRecords num_modems account_prefix modem_prefix sim_names =
        .error (.g_error message) := by
    rintro ⟨i, hi, hlong⟩
    apply synthesizeRecords_error
    refine ⟨i, hi, ?_⟩
    intro hw
    have h1 := hw.1
    have h2 := hw.2
    unfold account_name_fmt at h1
    unfold modem_name_fmt at h2
    omega
  refine ⟨⟨?_, ?_⟩, hcomplete, ?_⟩
  · rintro ⟨e, he⟩
    by_contra hnone
    push_neg at hnone
    obtain ⟨accounts, hok⟩ := hcomplete hnone
    rw [hok] at he
    cases he
  · intro h
    obtain ⟨message, hm⟩ := hfail h
    exact ⟨_, hm⟩
  · intro e he
    by_cases hall : ∀ i : Nat, (i : Int) < num_modems →
        ("ofono/ofono/".toList ++ account_prefix ++ fmt_d (i : Int)).length ≤ 80 ∧
          ("/".toList ++ modem_prefix ++ fmt_d (i : Int)).length ≤ 40
    · obtain ⟨accounts, hok⟩ := hcomplete hall
      rw [hok] at he
      cases he
    · push_neg at hall
      obtain ⟨i, hi, hlong⟩ := hall
      obtain ⟨message, hm⟩ := hfail ⟨i, hi, by
        by_cases h80 : 80 < ("ofono/ofono/".toList ++ account_prefix ++ fmt_d (i : Int)).length
        · exact Or.inl h80
        · exact Or.inr (hlong (by omega))⟩
      rw [hm] at he
      exact ⟨message, (Except.error.inj he).symm⟩

/-- Witness of C9 at the boundary: with one modem, an account prefix of 68
characters (a name of 81) ends in the `g_error`, one of 67 (a name of 80)
completes. -/
theorem synthesizeRecords_fatal_iff_witness :
    (∃ e, synthesizeRecords 1 prefix68 "ril_".toList [] = .error e) ∧
    (∃ accounts, synthesizeRecords 1 prefix67 "ril_".toList [] = .ok accounts) := by
  constructor
  · exact (synthesizeRecords_fatal_iff 1 prefix68 "ril_".toList []).1.mpr
      ⟨0, by decide, Or.inl (by decide)⟩
  · refine (synthesizeRecords_fatal_iff 1 prefix67 "ril_".toList []).2.1 ?_
    intro i hi
    have h0 : i = 0 := by omega
    subst h0
    decide

/-! ## The storage interface: the claims -/

/-- C2: `get` returns TRUE exactly when some record has the account name; on
FALSE nothing is pushed; on TRUE with a NULL key every entry of the first
matching record's parameter table is pushed once, in table order, and nothing
else; on TRUE with a key there is exactly one push, carrying the value stored
for the key, or NULL when the table has no such key. -/
theorem account_manager_ofono_get_spec (self : McpAccountManagerOfono)
    (account_name : CString) (key : Option CString) :
    ((account_manager_ofono_get self account_name key).1 = true ↔
        ∃ a ∈ self.accounts, a.account_name = account_name) ∧
    ((account_manager_ofono_get self account_name key).1 = false →
        (account_manager_ofono_get self account_name key).2 = []) ∧
    (∀ (pre post : List OfonoAccount) (account : OfonoAccount),
        self.accounts = pre ++ account :: post →
        account.account_name = account_name →
        (∀ b ∈ pre, b.account_name ≠ account_name) →
        (account_manager_ofono_get self account_name key).1 = true ∧
        (key = none →
          (account_manager_ofono_get self account_name key).2 =
            account.params.map
              (fun e => { account_name := account_name, key := e.1, value := some e.2 })) ∧
        (∀ k, key = some k →
          ∃ value : Option CString,
            (account_manager_ofono_get self account_name key).2 =
              [{ account_name := account_name, key := k, value := value }] ∧
            value = g_hash_table_lookup account.params k ∧
            (∀ v, value = some v → (k, v) ∈ account.params) ∧
            (value = none ↔ ∀ v, (k, v) ∉ account.params))) := by
  refine ⟨?_, ?_, ?_⟩
  · rw [← find_account_isSome_iff]
    unfold account_manager_ofono_get
    cases find_account self.accounts account_name with
    | none => simp
    | some a => cases key <;> simp
  · unfold account_manager_ofono_get
    cases find_account self.accounts account_name with
    | none => simp
    | some a => cases key <;> simp
  · intro pre post account hsplit hname hpre
    have hfind : find_account self.accounts account_name = some account := by
      rw [hsplit]; exact find_account_first pre post account account_name hname hpre
    unfold account_manager_ofono_get
    rw [hfind]
    refine ⟨?_, ?_, ?_⟩
    · cases key <;> rfl
    · intro hk; subst hk; rfl
    · intro k hk
      subst hk
      exact ⟨g_hash_table_lookup account.params k, rfl, rfl,
        fun v hv => g_hash_table_lookup_some_mem _ _ _ hv,
        g_hash_table_lookup_none_iff _ _⟩

/-- The store `store1` is what initialisation leaves with the count forced to 1. -/
theorem store1_is_synthesised :
    mcp_account_manager_ofono_init (env_forced "1".toList) sys_bare = .ok store1.accounts := by
  decide

/-- Witness of C2 on the store of one record: a NULL key pushes the six
parameters, the key `protocol` pushes `ofono`, an unset key pushes NULL, an
unknown account gives FALSE. -/
theorem account_manager_ofono_get_spec_witness :
    (account_manager_ofono_get store1 "ofono/ofono/account0".toList none).2.length = 6 ∧
    (account_manager_ofono_get store1 "ofono/ofono/account0".toList
        (some "protocol".toList)).2 =
      [{ account_name := "ofono/ofono/account0".toList, key := "protocol".toList,
         value := some "ofono".toList }] ∧
    (account_manager_ofono_get store1 "ofono/ofono/account0".toList
        (some "DisplayName".toList)).2 =
      [{ account_name := "ofono/ofono/account0".toList, key := "DisplayName".toList,
         value := none }] ∧
    (account_manager_ofono_get store1 "ofono/ofono/account1".toList none).1 = false := by
  refine ⟨?_, ?_, ?_, ?_⟩
  · obtain ⟨-, hall, -⟩ :=
      (account_manager_ofono_get_spec store1 "ofono/ofono/account0".toList none).2.2
        [] [] _ rfl rfl (by simp)
    rw [hall rfl]
    rfl
  · obtain ⟨-, -, hone⟩ :=
      (account_manager_ofono_get_spec store1 "ofono/ofono/account0".toList
        (some "protocol".toList)).2.2 [] [] _ rfl rfl (by simp)
    obtain ⟨value, hpush, hval, -, -⟩ := hone _ rfl
    rw [hpush, hval]
    decide
  · obtain ⟨-, -, hone⟩ :=
      (account_manager_ofono_get_spec store1 "ofono/ofono/account0".toList
        (some "DisplayName".toList)).2.2 [] [] _ rfl rfl (by simp)
    obtain ⟨value, hpush, hval, -, -⟩ := hone _ rfl
    rw [hpush, hval]
    decide
  · have h := (account_manager_ofono_get_spec store1 "ofono/ofono/account1".toList none).1
    cases hb : (account_manager_ofono_get store1 "ofono/ofono/account1".toList none).1 with
    | false => rfl
    | true =>
      obtain ⟨a, ha, hn⟩ := h.mp hb
      revert hn
      revert a
      decide

/-- C3: `set`, `delete` and `commit` return FALSE, `create` returns no account
name and raises an error, whatever the arguments; each leaves the plugin state
as it was, so `list`, `get`, `get_identifier` and `get_restrictions` answer
after the call as they did before. -/
theorem write_operations_rejected (self : McpAccountManagerOfono)
    (account_name key : CString) (val delete_key : Option CString)
    (cm_name protocol_name : CString) (params : GHashTable) :
    account_manager_ofono_set self account_name key val = (false, self) ∧
    account_manager_ofono_delete self account_name delete_key = (false, self) ∧
    account_manager_ofono_commit self = (false, self) ∧
    (account_manager_ofono_create self cm_name protocol_name params).1 = none ∧
    (account_manager_ofono_create self cm_name protocol_name params).2.1.isSome = true ∧
    (account_manager_ofono_create self cm_name protocol_name params).2.2 = self ∧
    (∀ after : McpAccountManagerOfono,
        after = (account_manager_ofono_set self account_name key val).2 ∨
        after = (account_manager_ofono_delete self account_name delete_key).2 ∨
        after = (account_manager_ofono_commit self).2 ∨
        after = (account_manager_ofono_create self cm_name protocol_name params).2.2 →
        after.accounts = self.accounts ∧
        account_manager_ofono_list after = account_manager_ofono_list self ∧
        (∀ name k, account_manager_ofono_get after name k = account_manager_ofono_get self name k) ∧
        (∀ name slot, account_manager_ofono_get_identifier after name slot =
            account_manager_ofono_get_identifier self name slot) ∧
        (∀ name, account_manager_ofono_get_restrictions after name =
            account_manager_ofono_get_restrictions self name)) := by
  refine ⟨rfl, rfl, rfl, rfl, rfl, rfl, ?_⟩
  intro after h
  have hs : after = self := by
    rcases h with h | h | h | h <;> exact h
  subst hs
  exact ⟨rfl, rfl, fun _ _ => rfl, fun _ _ => rfl, fun _ => rfl⟩

/-- C7: `get_restrictions` returns the OR of the four flags, 1|2|4|8 = 15, when
some record has the account name, and `G_MAXUINT` = 2^32 - 1 when none has; for
the empty store, which a count of 0 leaves, every name gives `G_MAXUINT`. -/
theorem account_manager_ofono_get_restrictions_spec (self : McpAccountManagerOfono)
    (account_name : CString) :
    ((∃ a ∈ self.accounts, a.account_name = account_name) →
        account_manager_ofono_get_restrictions self account_name = 15 ∧
        account_manager_ofono_get_restrictions self account_name =
          TP_STORAGE_RESTRICTION_FLAG_CANNOT_SET_PARAMETERS |||
            TP_STORAGE_RESTRICTION_FLAG_CANNOT_SET_ENABLED |||
            TP_STORAGE_RESTRICTION_FLAG_CANNOT_SET_PRESENCE |||
            TP_STORAGE_RESTRICTION_FLAG_CANNOT_SET_SERVICE) ∧
    ((∀ a ∈ self.accounts, a.account_name ≠ account_name) →
        account_manager_ofono_get_restrictions self account_name = 2 ^ 32 - 1) ∧
    account_manager_ofono_get_restrictions { accounts := [] } account_name = 2 ^ 32 - 1 ∧
    (∀ (ap mp : CString) (sim : GHashTable), synthesizeRecords 0 ap mp sim = .ok []) := by
  refine ⟨?_, ?_, rfl, fun _ _ _ => rfl⟩
  · intro h
    have hsome := (find_account_isSome_iff self.accounts account_name).mpr h
    obtain ⟨a, ha⟩ := Option.isSome_iff_exists.mp hsome
    unfold account_manager_ofono_get_restrictions
    rw [ha]
    exact ⟨rfl, rfl⟩
  · intro h
    have hnone := (find_account_eq_none_iff self.accounts account_name).mpr h
    unfold account_manager_ofono_get_restrictions
    rw [hnone]
    rfl

/-- Witness of C7 on a store of two records. -/
theorem account_manager_ofono_get_restrictions_spec_witness :
    account_manager_ofono_get_restrictions store2 "ofono/ofono/account1".toList = 15 ∧
    account_manager_ofono_get_restrictions store2 "ofono/ofono/account2".toList =
      4294967295 := by
  constructor
  · exact ((account_manager_ofono_get_restrictions_spec store2
      "ofono/ofono/account1".toList).1
        ⟨⟨"ofono/ofono/account1".toList, 1, []⟩, by decide, by decide⟩).1
  · exact (account_manager_ofono_get_restrictions_spec store2
      "ofono/ofono/account2".toList).2.1 (by decide)

/-- C8: in a store whose account names are pairwise distinct, `get_identifier`
called with the name of a record `r` leaves in the slot the `guint` conversion
of `r.index`, which is `r.index` itself for the non-negative `int` it always
is; for a name no record has, the slot is left as it was. -/
theorem account_manager_ofono_get_identifier_spec (self : McpAccountManagerOfono)
    (hdistinct : (self.accounts.map (fun a => a.account_name)).Nodup) (slot : GValue) :
    (∀ r ∈ self.accounts,
        ∃ v : Nat,
          account_manager_ofono_get_identifier self r.account_name slot = .uint v ∧
          (v : Int) = r.index % 2 ^ 32 ∧
          (0 ≤ r.index → r.index ≤ INT_MAX → (v : Int) = r.index)) ∧
    (∀ account_name, (∀ a ∈ self.accounts, a.account_name ≠ account_name) →
        account_manager_ofono_get_identifier self account_name slot = slot) := by
  constructor
  · intro r hr
    have hfind := find_account_of_nodup self.accounts hdistinct r hr
    refine ⟨(r.index % 2 ^ 32).toNat, ?_, ?_, ?_⟩
    · unfold account_manager_ofono_get_identifier
      rw [hfind]
    · have : (0 : Int) ≤ r.index % 2 ^ 32 := Int.emod_nonneg _ (by norm_num)
      omega
    · intro h0 hmax
      unfold INT_MAX at hmax
      have : (0 : Int) ≤ r.index % 2 ^ 32 := Int.emod_nonneg _ (by norm_num)
      omega
  · intro account_name h
    have hnone := (find_account_eq_none_iff self.accounts account_name).mpr h
    unfold account_manager_ofono_get_identifier
    rw [hnone]

/-- Witness of C8 on a store of two records. -/
theorem account_manager_ofono_get_identifier_spec_witness :
    (store2.accounts.map (fun a => a.account_name)).Nodup ∧
    account_manager_ofono_get_identifier store2 "ofono/ofono/account1".toList .unset = .uint 1 ∧
    account_manager_ofono_get_identifier store2 "ofono/ofono/account7".toList .unset = .unset := by
  have hd : (store2.accounts.map (fun a => a.account_name)).Nodup := by decide
  have h := account_manager_ofono_get_identifier_spec store2 hd .unset
  refine ⟨hd, ?_, ?_⟩
  · obtain ⟨v, hv, -, hidx⟩ :=
      h.1 ⟨"ofono/ofono/account1".toList, 1, []⟩ (by decide)
    have : (v : Int) = 1 := hidx (by decide) (by decide)
    have hv1 : v = 1 := by omega
    rw [hv, hv1]
  · exact h.2 _ (by decide)

/-- C6: `list` returns the account name of every record once and nothing else:
the names in discovery order, reversed; so as many names as records and a
permutation of the discovery order. With the count forced to 2 and no prefix
set, initialisation succeeds on every system and `list` returns
`ofono/ofono/account1`, `ofono/ofono/account0`. -/
theorem account_manager_ofono_list_spec (self : McpAccountManagerOfono) :
    account_manager_ofono_list self = (self.accounts.map (fun a => a.account_name)).reverse ∧
    (account_manager_ofono_list self).length = self.accounts.length ∧
    (account_manager_ofono_list self).Perm (self.accounts.map (fun a => a.account_name)) ∧
    (∀ sys : System, ∃ accounts,
        mcp_account_manager_ofono_init (env_forced "2".toList) sys = .ok accounts ∧
        account_manager_ofono_list { accounts := accounts } =
          ["ofono/ofono/account1".toList, "ofono/ofono/account0".toList]) := by
  have hlist : account_manager_ofono_list self =
      (self.accounts.map (fun a => a.account_name)).reverse := by
    unfold account_manager_ofono_list
    rw [list_loop_eq, List.append_nil]
  refine ⟨hlist, ?_, ?_, ?_⟩
  · rw [hlist]; simp
  · rw [hlist]; exact List.reverse_perm _
  · intro sys
    have hcount : determine_num_modems (env_forced "2".toList) sys = .ok (some 2) := rfl
    have hfits : ∀ k : Nat, (k : Int) < 2 →
        within_limits "account".toList "ril_".toList (k : Int) := by
      intro k hk
      have hk2 : k < 2 := by omega
      interval_cases k <;> unfold within_limits <;> decide
    refine ⟨(List.range 2).map (fun k : Nat =>
      record_at "account".toList "ril_".toList (fetch_sim_names sys) k), ?_, ?_⟩
    · rw [mcp_account_manager_ofono_init_of_count _ sys 2 hcount]
      exact synthesizeRecords_ok 2 _ _ _ hfits
    · rfl

/-! ## The parameters of a record -/

/-- C4: with the modem prefix `ril_` and a count that is a C `int`, whenever
synthesis completes the record at position `i < count` has index `i` and its
parameter table is the six baseline entries (manager, protocol, Enabled,
ConnectAutomatically, always_dispatch, param-modem-objpath = `/ril_<i>`),
followed by DisplayName = v exactly when the SIM-name table has the entry
(`/ril_<i>`, v); with no such entry there is no DisplayName. -/
theorem default_modem_params (num_modems : Int) (hmax : num_modems ≤ INT_MAX)
    ( account_prefix : CString) (sim_names : GHashTable)
    (hkeys : (sim_names.map Prod.fst).Nodup) (accounts : List OfonoAccount)
    (h : synthesizeRecords num_modems account_prefix "ril_".toList sim_names = .ok accounts)
    (i : Nat) (hi : (i : Int) < num_modems) :
    ∃ account, accounts[i]? = some account ∧ account.index = (i : Int) ∧
      (∀ v, ("/ril_".toList ++ fmt_d (i : Int), v) ∈ sim_names →
        account.params =
          [("manager".toList, "ofono".toList), ("protocol".toList, "ofono".toList),
           ("Enabled".toList, "true".toList), ("ConnectAutomatically".toList, "true".toList),
           ("always_dispatch".toList, "true".toList),
           ("param-modem-objpath".toList, "/ril_".toList ++ fmt_d (i : Int)),
           ("DisplayName".toList, v)]) ∧
      ((∀ v, ("/ril_".toList ++ fmt_d (i : Int), v) ∉ sim_names) →
        account.params =
          [("manager".toList, "ofono".toList), ("protocol".toList, "ofono".toList),
           ("Enabled".toList, "true".toList), ("ConnectAutomatically".toList, "true".toList),
           ("always_dispatch".toList, "true".toList),
           ("param-modem-objpath".toList, "/ril_".toList ++ fmt_d (i : Int))]) ∧
      (∀ v, g_hash_table_lookup account.params "DisplayName".toList = some v ↔
        ("/ril_".toList ++ fmt_d (i : Int), v) ∈ sim_names) := by
  obtain ⟨-, hacc⟩ := synthesizeRecords_ok_inv num_modems account_prefix _ sim_names accounts h
  have hin : i < num_modems.toNat := by omega
  have hmodem : (modem_name_fmt "ril_".toList (i : Int)).take 39 =
      "/ril_".toList ++ fmt_d (i : Int) := by
    have hfmt : modem_name_fmt "ril_".toList (i : Int) = "/ril_".toList ++ fmt_d (i : Int) := rfl
    rw [hfmt]
    apply List.take_of_length_le
    have hlen := fmt_d_length_le (i : Int) (by omega) (by unfold INT_MAX at hmax; omega)
    have : "/ril_".toList.length = 5 := by decide
    rw [List.length_append, this]
    omega
  have hget : accounts[i]? = some (record_at account_prefix "ril_".toList sim_names (i : Int)) := by
    rw [hacc, List.getElem?_map, List.getElem?_range hin]
    rfl
  have hparams : (record_at account_prefix "ril_".toList sim_names (i : Int)).params =
      sim_names_loop ("/ril_".toList ++ fmt_d (i : Int)) sim_names
        (baseline_params ("/ril_".toList ++ fmt_d (i : Int))) := by
    simp only [record_at, hmodem]
  refine ⟨_, hget, rfl, ?_, ?_, ?_⟩
  · intro v hv
    rw [hparams, sim_names_loop_of_mem _ v sim_names hkeys hv,
      baseline_params_insert_display_name]
    rfl
  · intro hno
    rw [hparams, sim_names_loop_of_not_mem _ sim_names hno]
    rfl
  · intro v
    rw [hparams]
    by_cases hex : ∃ w, ("/ril_".toList ++ fmt_d (i : Int), w) ∈ sim_names
    · obtain ⟨w, hw⟩ := hex
      rw [sim_names_loop_of_mem _ w sim_names hkeys hw, baseline_params_insert_display_name,
        baseline_params_lookup_after_insert]
      constructor
      · intro e
        cases e
        exact hw
      · intro hv
        rw [nodup_keys_value_unique sim_names hkeys _ v w hv hw]
    · push_neg at hex
      rw [sim_names_loop_of_not_mem _ sim_names hex, baseline_params_lookup_display_name]
      constructor
      · intro e; cases e
      · intro hv; exact absurd hv (hex v)

/-- Witness of C4: three modems, a SIM name for `/ril_2` only; the third record
carries that DisplayName and the first has none. -/
theorem default_modem_params_witness :
    ∃ accounts, synthesizeRecords 3 "account".toList "ril_".toList sim_names_third = .ok accounts ∧
      (∃ account, accounts[2]? = some account ∧ account.index = 2 ∧
        g_hash_table_lookup account.params "DisplayName".toList = some "SIM 3".toList ∧
        g_hash_table_lookup account.params "param-modem-objpath".toList = some "/ril_2".toList) ∧
      (∃ account, accounts[0]? = some account ∧ account.index = 0 ∧
        g_hash_table_lookup account.params "DisplayName".toList = none) := by
  have hsyn : synthesizeRecords 3 "account".toList "ril_".toList sim_names_third =
      .ok ((List.range 3).map
        (fun k : Nat => record_at "account".toList "ril_".toList sim_names_third k)) := by
    decide
  refine ⟨_, hsyn, ?_, ?_⟩
  · obtain ⟨account, hget, hidx, hwith, -, -⟩ :=
      default_modem_params 3 (by decide) "account".toList sim_names_third (by decide) _ hsyn 2
        (by decide)
    have hp := hwith "SIM 3".toList (by decide)
    refine ⟨account, hget, hidx, ?_, ?_⟩
    · rw [hp]; decide
    · rw [hp]; decide
  · obtain ⟨account, hget, hidx, -, hwithout, -⟩ :=
      default_modem_params 3 (by decide) "account".toList sim_names_third (by decide) _ hsyn 0
        (by decide)
    have hp := hwithout (by
      intro v hv
      have hkey : "/ril_".toList ++ fmt_d ((0 : Nat) : Int) ∈ sim_names_third.map Prod.fst :=
        List.mem_map_of_mem Prod.fst hv
      revert hkey
      decide)
    refine ⟨account, hget, hidx, ?_⟩
    rw [hp]; decide

/-! ## Names of exactly the buffer's size -/

/-- C1 at a failing input: with the count forced to 2 and an account prefix of
67 characters both full account names have 80 characters, so neither length
check fires, both buffers keep the first 79 characters only, and the two
records, of index 0 and 1, carry the same account name. -/
theorem duplicate_account_names_at_80 :
    (account_name_fmt prefix67 0).length = 80 ∧ (account_name_fmt prefix67 1).length = 80 ∧
    account_name_fmt prefix67 0 ≠ account_name_fmt prefix67 1 ∧
    ∃ a0 a1, mcp_account_manager_ofono_init env_two_long_names sys_bare = .ok [a0, a1] ∧
      a0.index = 0 ∧ a1.index = 1 ∧
      a0.account_name = "ofono/ofono/".toList ++ prefix67 ∧
      a1.account_name = "ofono/ofono/".toList ++ prefix67 ∧
      ¬ ([a0, a1].map (fun a => a.account_name)).Nodup := by
  refine ⟨by decide, by decide, by decide,
    record_at prefix67 "ril_".toList [] 0, record_at prefix67 "ril_".toList [] 1,
    by decide, by decide, by decide, by decide, by decide, by decide⟩

/-- C5 at a failing input: with the count forced to 1, an account prefix of 67
and a modem prefix of 38 characters, initialisation completes and the record's
account name and `param-modem-objpath` are the full texts without their last
character, the index digit. -/
theorem truncated_names_at_limit :
    ∃ a, mcp_account_manager_ofono_init env_one_long_name sys_bare = .ok [a] ∧
      a.account_name = "ofono/ofono/".toList ++ prefix67 ∧
      a.account_name ≠ "ofono/ofono/".toList ++ prefix67 ++ fmt_d 0 ∧
      g_hash_table_lookup a.params "param-modem-objpath".toList =
        some ("/".toList ++ prefix38) ∧
      g_hash_table_lookup a.params "param-modem-objpath".toList ≠
        some ("/".toList ++ prefix38 ++ fmt_d 0) := by
  refine ⟨record_at prefix67 prefix38 [] 0, by decide, by decide, by decide, by decide,
    by decide⟩

/-- C10 at a failing input: no override, `getprop` present, the library-path
query answers a non-empty path and the spawn of the slot-count query fails;
`atoi` is then called on the `NULL` output and the process crashes, in the
count determination and so in initialisation as a whole. -/
theorem slot_count_spawn_failure_crashes :
    determine_num_modems env_unset sys_slot_query_fails = .error .null_dereference ∧
    mcp_account_manager_ofono_init env_unset sys_slot_query_fails =
      .error .null_dereference := by
  constructor <;> decide

/-! ## What holds beside the failing inputs -/

/-- Whenever synthesis completes, the list has one record for each index below
the count, in order, each carrying its position as index; a count of zero or
less leaves the list empty (and synthesis then always completes). -/
theorem synthesizeRecords_count_and_indices (num_modems : Int)
    ( account_prefix modem_prefix : CString) (sim_names : GHashTable)
    (accounts : List OfonoAccount)
    (h : synthesizeRecords num_modems account_prefix modem_prefix sim_names = .ok accounts) :
    accounts.length = num_modems.toNat ∧
    (0 ≤ num_modems → (accounts.length : Int) = num_modems) ∧
    (∀ i : Nat, i < accounts.length → ∃ a, accounts[i]? = some a ∧ a.index = (i : Int)) ∧
    (num_modems ≤ 0 → accounts = []) := by
  obtain ⟨-, hacc⟩ := synthesizeRecords_ok_inv num_modems account_prefix modem_prefix sim_names
    accounts h
  have hlen : accounts.length = num_modems.toNat := by rw [hacc]; simp
  refine ⟨hlen, ?_, ?_, ?_⟩
  · intro h0; rw [hlen]; omega
  · intro i hi
    refine ⟨record_at account_prefix modem_prefix sim_names (i : Int), ?_, rfl⟩
    rw [hacc, List.getElem?_map, List.getElem?_range (by omega)]
    rfl
  · intro h0
    have : num_modems.toNat = 0 := by omega
    rw [hacc, this]
    rfl

/-- The indices of synthesised records are non-negative `int`s when the count
is one. -/
theorem synthesizeRecords_index_range (num_modems : Int) (hmax : num_modems ≤ INT_MAX)
    ( account_prefix modem_prefix : CString) (sim_names : GHashTable)
    (accounts : List OfonoAccount)
    (h : synthesizeRecords num_modems account_prefix modem_prefix sim_names = .ok accounts) :
    ∀ a ∈ accounts, 0 ≤ a.index ∧ a.index ≤ INT_MAX := by
  obtain ⟨-, hacc⟩ := synthesizeRecords_ok_inv num_modems account_prefix modem_prefix sim_names
    accounts h
  intro a ha
  rw [hacc, List.mem_map] at ha
  obtain ⟨k, hk, rfl⟩ := ha
  rw [List.mem_range] at hk
  simp only [record_at]
  unfold INT_MAX at hmax ⊢
  omega

/-- A count of zero or less always completes with the empty list. -/
theorem synthesizeRecords_nonpositive (num_modems : Int) (h : num_modems ≤ 0)
    ( account_prefix modem_prefix : CString) (sim_names : GHashTable) :
    synthesizeRecords num_modems account_prefix modem_prefix sim_names = .ok [] := by
  have : num_modems.toNat = 0 := by omega
  unfold synthesizeRecords
  rw [this]
  rfl

/-- When every full account name is shorter than the buffer (at most 79
characters), the account names of the synthesised records are pairwise
distinct. -/
theorem synthesizeRecords_names_distinct_below_limit (num_modems : Int)
    ( account_prefix modem_prefix : CString) (sim_names : GHashTable)
    (accounts : List OfonoAccount)
    (h : synthesizeRecords num_modems account_prefix modem_prefix sim_names = .ok accounts)
    (hshort : ∀ i : Nat, (i : Int) < num_modems →
      ("ofono/ofono/".toList ++ account_prefix ++ fmt_d (i : Int)).length ≤ 79) :
    (accounts.map (fun a => a.account_name)).Nodup := by
  obtain ⟨-, hacc⟩ := synthesizeRecords_ok_inv num_modems account_prefix modem_prefix sim_names
    accounts h
  rw [hacc, List.map_map]
  refine List.Nodup.map_on ?_ (List.nodup_range _)
  intro a ha b hb hab
  rw [List.mem_range] at ha hb
  simp only [Function.comp, record_at] at hab
  have hla := hshort a (by omega)
  have hlb := hshort b (by omega)
  rw [List.take_of_length_le (by unfold account_name_fmt; exact hla),
    List.take_of_length_le (by unfold account_name_fmt; exact hlb)] at hab
  exact account_name_fmt_injective account_prefix a b hab

/-- When the full account name at an index has at most 79 characters and the
full modem name at most 39, the record's account name and its
`param-modem-objpath` are those full texts. -/
theorem synthesizeRecords_names_exact_below_limit (num_modems : Int)
    ( account_prefix modem_prefix : CString) (sim_names : GHashTable)
    (accounts : List OfonoAccount)
    (h : synthesizeRecords num_modems account_prefix modem_prefix sim_names = .ok accounts)
    (i : Nat) (hi : (i : Int) < num_modems)
    (hname : ("ofono/ofono/".toList ++ account_prefix ++ fmt_d (i : Int)).length ≤ 79)
    (hmodem : ("/".toList ++ modem_prefix ++ fmt_d (i : Int)).length ≤ 39) :
    ∃ a, accounts[i]? = some a ∧
      a.account_name = "ofono/ofono/".toList ++ account_prefix ++ fmt_d (i : Int) ∧
      g_hash_table_lookup a.params "param-modem-objpath".toList =
        some ("/".toList ++ modem_prefix ++ fmt_d (i : Int)) := by
  obtain ⟨-, hacc⟩ := synthesizeRecords_ok_inv num_modems account_prefix modem_prefix sim_names
    accounts h
  refine ⟨record_at account_prefix modem_prefix sim_names (i : Int), ?_, ?_, ?_⟩
  · rw [hacc, List.getElem?_map, List.getElem?_range (by omega)]
    rfl
  · simp only [record_at]
    exact List.take_of_length_le (by unfold account_name_fmt; exact hname)
  · have hm : (modem_name_fmt modem_prefix (i : Int)).take 39 =
        "/".toList ++ modem_prefix ++ fmt_d (i : Int) :=
      List.take_of_length_le (by unfold modem_name_fmt; exact hmodem)
    simp only [record_at, hm]
    rcases sim_names_loop_cases ("/".toList ++ modem_prefix ++ fmt_d (i : Int)) sim_names
      (baseline_params ("/".toList ++ modem_prefix ++ fmt_d (i : Int))) with hc | ⟨v, hc⟩
    · rw [hc]
      exact baseline_params_lookup_objpath _
    · rw [hc, baseline_params_insert_display_name]
      exact baseline_params_lookup_objpath_after_insert _ _

/-- Without an override the count determination ends in one of five ways: no
`getprop`, or a failed library-path query, leaves initialisation early with no
account; an empty library path gives the count 0 and no account; a non-empty
path and an answered slot-count query give the `atoi` of that answer; a
non-empty path and a failed slot-count query reach `atoi (NULL)`. -/
theorem determine_num_modems_without_override (env : Environment) (sys : System)
    (henv : env.FORCE_RIL_NUM_MODEMS = none) :
    (sys.getprop_executable = false →
      determine_num_modems env sys = .ok none ∧
        mcp_account_manager_ofono_init env sys = .ok []) ∧
    (sys.getprop_executable = true → sys.rild_libpath = none →
      determine_num_modems env sys = .ok none ∧
        mcp_account_manager_ofono_init env sys = .ok []) ∧
    (∀ output, sys.getprop_executable = true → sys.rild_libpath = some output →
      g_strstrip output = [] →
      determine_num_modems env sys = .ok (some 0) ∧
        mcp_account_manager_ofono_init env sys = .ok []) ∧
    (∀ output output2, sys.getprop_executable = true → sys.rild_libpath = some output →
      g_strstrip output ≠ [] → sys.ril_num_slots = some output2 →
      ∃ n, atoi (some output2) = .ok n ∧ determine_num_modems env sys = .ok (some n)) ∧
    (∀ output, sys.getprop_executable = true → sys.rild_libpath = some output →
      g_strstrip output ≠ [] → sys.ril_num_slots = none →
      determine_num_modems env sys = .error .null_dereference) := by
  refine ⟨?_, ?_, ?_, ?_, ?_⟩
  · intro hx
    have hd : determine_num_modems env sys = .ok none := by
      simp [determine_num_modems, henv, hx]
    exact ⟨hd, by simp only [mcp_account_manager_ofono_init, hd]⟩
  · intro hx hl
    have hd : determine_num_modems env sys = .ok none := by
      simp [determine_num_modems, henv, hx, hl]
    exact ⟨hd, by simp only [mcp_account_manager_ofono_init, hd]⟩
  · intro output hx hl hs
    have hd : determine_num_modems env sys = .ok (some 0) := by
      simp [determine_num_modems, henv, hx, hl, hs]
    refine ⟨hd, ?_⟩
    rw [mcp_account_manager_ofono_init_of_count env sys 0 hd]
    rfl
  · intro output output2 hx hl hs h2
    cases hat : atoi (some output2) with
    | error e =>
      exfalso
      unfold atoi at hat
      simp only [] at hat
      split at hat <;> cases hat
    | ok n =>
      refine ⟨n, rfl, ?_⟩
      simp only [determine_num_modems, henv, hx, hl, h2, hat]
      simp [hs]
  · intro output hx hl hs h2
    simp only [determine_num_modems, henv, hx, hl, h2, atoi]
    simp [hs]

end McpOfono
